import Mathlib

/-!
Verification of the multi-provider music aggregation and resolution engine
of the onlyvibes repository. The definitions below are shallow embeddings of
the JavaScript source: the aggregator and resolver of
src/pwa/lib/yt-putty/index.js (YtPuttyApi) and src/pwa/pwa-api.js (PwaApi),
and the provider classes of src/pwa/lib/yt-putty/providers.js. Network
effects are abstracted as explicit response oracles; thrown exceptions are
modelled with Except.
-/

namespace OnlyVibes

/-- TrackRecord: the normalized search result shape produced by every
provider (title, videoId, duration, uploader, source tag, provider name). -/
structure TrackRecord where
  title : String
  videoId : String
  duration : Nat
  uploader : String
  source : String
  provider : String
deriving DecidableEq

/-- Model of the JavaScript String.prototype.toLowerCase call: lowercase the
string character by character. -/
def jsToLower (s : String) : String :=
  ⟨s.data.map Char.toLower⟩

/-- Deduplication key of the aggregator loop: the JavaScript template string
item.title.toLowerCase() + "_" + item.videoId from YtPuttyApi.search
(src/pwa/lib/yt-putty/index.js line 45) and PwaApi.search. -/
def dedupKey (r : TrackRecord) : String :=
  jsToLower r.title ++ "_" ++ r.videoId

/-- The dedup loop of YtPuttyApi.search with the seen set made explicit:
skip an item whose key is already in seen, otherwise emit it and record its
key. -/
def dedupFrom (seen : List String) : List TrackRecord → List TrackRecord
  | [] => []
  | r :: rs =>
    if dedupKey r ∈ seen then dedupFrom seen rs
    else r :: dedupFrom (dedupKey r :: seen) rs

/-- Deduplicate a flattened result list starting from an empty seen set, as
the aggregator does. -/
def dedup (l : List TrackRecord) : List TrackRecord :=
  dedupFrom [] l

lemma dedupFrom_sublist (l : List TrackRecord) :
    ∀ seen, List.Sublist (dedupFrom seen l) l := by
  induction l with
  | nil => intro seen; simp [dedupFrom]
  | cons r rs ih =>
    intro seen
    by_cases h : dedupKey r ∈ seen
    · simp only [dedupFrom, if_pos h]
      exact List.Sublist.cons r (ih seen)
    · simp only [dedupFrom, if_neg h]
      exact List.Sublist.cons₂ r (ih (dedupKey r :: seen))

lemma dedupFrom_key_not_seen (l : List TrackRecord) :
    ∀ seen, ∀ b ∈ dedupFrom seen l, dedupKey b ∉ seen := by
  induction l with
  | nil => intro seen b hb; simp [dedupFrom] at hb
  | cons r rs ih =>
    intro seen b hb
    by_cases h : dedupKey r ∈ seen
    · rw [dedupFrom, if_pos h] at hb
      exact ih seen b hb
    · rw [dedupFrom, if_neg h] at hb
      rcases List.mem_cons.mp hb with hb | hb
      · rw [hb]; exact h
      · have := ih (dedupKey r :: seen) b hb
        exact fun hc => this (List.mem_cons_of_mem _ hc)

lemma dedupFrom_keys_nodup (l : List TrackRecord) :
    ∀ seen, ((dedupFrom seen l).map dedupKey).Nodup := by
  induction l with
  | nil => intro seen; simp [dedupFrom]
  | cons r rs ih =>
    intro seen
    by_cases h : dedupKey r ∈ seen
    · rw [dedupFrom, if_pos h]; exact ih seen
    · rw [dedupFrom, if_neg h]
      simp only [List.map_cons, List.nodup_cons]
      refine ⟨?_, ih (dedupKey r :: seen)⟩
      intro hmem
      rcases List.mem_map.mp hmem with ⟨b, hb, hkey⟩
      have := dedupFrom_key_not_seen rs (dedupKey r :: seen) b hb
      exact this (by rw [hkey]; exact List.mem_cons_self _ _)

lemma dedupFrom_first (l : List TrackRecord) :
    ∀ seen, ∀ b ∈ dedupFrom seen l,
      ∃ l₁ l₂, l = l₁ ++ b :: l₂ ∧ ∀ a ∈ l₁, dedupKey a ≠ dedupKey b := by
  induction l with
  | nil => intro seen b hb; simp [dedupFrom] at hb
  | cons r rs ih =>
    intro seen b hb
    by_cases h : dedupKey r ∈ seen
    · rw [dedupFrom, if_pos h] at hb
      rcases ih seen b hb with ⟨l₁, l₂, heq, hne⟩
      have hbkey : dedupKey b ∉ seen := dedupFrom_key_not_seen rs seen b hb
      refine ⟨r :: l₁, l₂, by rw [heq]; rfl, ?_⟩
      intro a ha
      rcases List.mem_cons.mp ha with ha | ha
      · rw [ha]; intro hc; rw [hc] at h; exact hbkey h
      · exact hne a ha
    · rw [dedupFrom, if_neg h] at hb
      rcases List.mem_cons.mp hb with hb | hb
      · exact ⟨[], rs, by rw [hb]; rfl, by intro a ha; simp at ha⟩
      · rcases ih (dedupKey r :: seen) b hb with ⟨l₁, l₂, heq, hne⟩
        have hbkey := dedupFrom_key_not_seen rs (dedupKey r :: seen) b hb
        refine ⟨r :: l₁, l₂, by rw [heq]; rfl, ?_⟩
        intro a ha
        rcases List.mem_cons.mp ha with ha | ha
        · rw [ha]
          intro hc
          exact hbkey (by rw [← hc]; exact List.mem_cons_self _ _)
        · exact hne a ha

lemma dedupFrom_covers (l : List TrackRecord) :
    ∀ seen, ∀ a ∈ l, dedupKey a ∉ seen →
      ∃ b ∈ dedupFrom seen l, dedupKey b = dedupKey a := by
  induction l with
  | nil => intro seen a ha; simp at ha
  | cons r rs ih =>
    intro seen a ha hno
    by_cases h : dedupKey r ∈ seen
    · rw [dedupFrom, if_pos h]
      rcases List.mem_cons.mp ha with ha | ha
      · exact absurd (ha ▸ h) hno
      · exact ih seen a ha hno
    · rw [dedupFrom, if_neg h]
      by_cases hk : dedupKey a = dedupKey r
      · exact ⟨r, List.mem_cons_self _ _, hk.symm⟩
      · rcases List.mem_cons.mp ha with ha | ha
        · exact absurd (by rw [ha]) hk
        · have hno2 : dedupKey a ∉ dedupKey r :: seen := by
            intro hc
            rcases List.mem_cons.mp hc with hc | hc
            · exact hk hc
            · exact hno hc
          rcases ih (dedupKey r :: seen) a ha hno2 with ⟨b, hb, hkey⟩
          exact ⟨b, List.mem_cons_of_mem _ hb, hkey⟩

/-- C1: the Aggregator merge (dedup over the concatenated fan-out results)
returns a subsequence of its input, keeps at most one record per dedup key,
keeps for each surviving record the first occurrence of its key (everything
before it in the input has a different key), covers every key of the input,
and keeps at most one record per (lowercased title, trackId) pair. -/
theorem aggregator_dedup_first_occurrence (l : List TrackRecord) :
    List.Sublist (dedup l) l ∧
    ((dedup l).map dedupKey).Nodup ∧
    (∀ b ∈ dedup l,
      ∃ l₁ l₂, l = l₁ ++ b :: l₂ ∧ ∀ a ∈ l₁, dedupKey a ≠ dedupKey b) ∧
    (∀ a ∈ l, ∃ b ∈ dedup l, dedupKey b = dedupKey a) ∧
    (∀ a ∈ dedup l, ∀ b ∈ dedup l,
      jsToLower a.title = jsToLower b.title → a.videoId = b.videoId → a = b) := by
  refine ⟨dedupFrom_sublist l [], dedupFrom_keys_nodup l [], dedupFrom_first l [], ?_, ?_⟩
  · intro a ha
    exact dedupFrom_covers l [] a ha (by simp)
  · intro a ha b hb htitle hid
    have hkey : dedupKey a = dedupKey b := by
      unfold dedupKey; rw [htitle, hid]
    exact List.inj_on_of_nodup_map (dedupFrom_keys_nodup l []) ha hb hkey

/-- Witness for C1 at a concrete input: deduplicating a two-element list with
equal keys keeps exactly the first record. -/
theorem aggregator_dedup_first_occurrence_witness :
    dedup [⟨"Thriller", "1", 0, "mj", "YT", "YouTube"⟩,
           ⟨"THRILLER", "1", 0, "mj2", "PI", "Piped"⟩] =
      [⟨"Thriller", "1", 0, "mj", "YT", "YouTube"⟩] ∧
    (⟨"Thriller", "1", 0, "mj", "YT", "YouTube"⟩ : TrackRecord) ∈
      dedup [⟨"Thriller", "1", 0, "mj", "YT", "YouTube"⟩,
             ⟨"THRILLER", "1", 0, "mj2", "PI", "Piped"⟩] := by
  have hcomp : dedup [⟨"Thriller", "1", 0, "mj", "YT", "YouTube"⟩,
      ⟨"THRILLER", "1", 0, "mj2", "PI", "Piped"⟩] =
      [⟨"Thriller", "1", 0, "mj", "YT", "YouTube"⟩] := by decide
  refine ⟨hcomp, ?_⟩
  rcases (aggregator_dedup_first_occurrence
      [⟨"Thriller", "1", 0, "mj", "YT", "YouTube"⟩,
       ⟨"THRILLER", "1", 0, "mj2", "PI", "Piped"⟩]).2.2.2.1
      ⟨"Thriller", "1", 0, "mj", "YT", "YouTube"⟩ (by decide) with ⟨b, hb, hkey⟩
  rw [hcomp] at hb
  have hb2 : b = ⟨"Thriller", "1", 0, "mj", "YT", "YouTube"⟩ :=
    List.mem_singleton.mp hb
  rw [hcomp]
  exact hb2 ▸ hb

/-- C9: the dedup key is the single concatenated string lowercased title,
underscore, trackId; the concatenation is not injective: the records
(title "a_b", id "c") and (title "a", id "b_c") have distinct
(lowercased title, trackId) pairs but the same key, so deduplication keeps
only the earlier record. -/
theorem dedup_key_collision :
    (∀ r : TrackRecord, dedupKey r = jsToLower r.title ++ "_" ++ r.videoId) ∧
    dedupKey ⟨"a_b", "c", 0, "u1", "YT", "YouTube"⟩ =
      dedupKey ⟨"a", "b_c", 0, "u2", "PI", "Piped"⟩ ∧
    ¬(jsToLower (⟨"a_b", "c", 0, "u1", "YT", "YouTube"⟩ : TrackRecord).title =
        jsToLower (⟨"a", "b_c", 0, "u2", "PI", "Piped"⟩ : TrackRecord).title ∧
      (⟨"a_b", "c", 0, "u1", "YT", "YouTube"⟩ : TrackRecord).videoId =
        (⟨"a", "b_c", 0, "u2", "PI", "Piped"⟩ : TrackRecord).videoId) ∧
    dedup [⟨"a_b", "c", 0, "u1", "YT", "YouTube"⟩,
           ⟨"a", "b_c", 0, "u2", "PI", "Piped"⟩] =
      [⟨"a_b", "c", 0, "u1", "YT", "YouTube"⟩] := by
  exact ⟨fun r => rfl, by decide, by decide, by decide⟩

/-- Witness for C9 at its concrete input: the colliding pair deduplicates
to the first record alone. -/
theorem dedup_key_collision_witness :
    dedup [⟨"a_b", "c", 0, "u1", "YT", "YouTube"⟩,
           ⟨"a", "b_c", 0, "u2", "PI", "Piped"⟩] =
      [⟨"a_b", "c", 0, "u1", "YT", "YouTube"⟩] :=
  dedup_key_collision.2.2.2

/-- Search-side view of one provider entry of the YtPuttyApi provider map:
its key, display name, capability flag declared at construction, whether it
has a rotate method, and the outcome of its search call for the query under
consideration (error models a thrown exception). -/
structure SProv where
  key : String
  name : String
  canSearch : Bool
  hasRotate : Bool
  result : Except Unit (List TrackRecord)

/-- True when the search call of the provider threw. -/
def sthrows (p : SProv) : Bool :=
  match p.result with
  | .error _ => true
  | .ok _ => false

/-- Contribution of one provider to the fan-out: on success the results
stamped with the provider display name (the spread in the fan-out mapping
each result to a copy carrying provider.name), on a thrown error the
empty list produced by the catch branch. -/
def contribution (p : SProv) : List TrackRecord :=
  match p.result with
  | .ok rs => rs.map (fun r => { r with provider := p.name })
  | .error _ => []

/-- Model of Array.prototype.flat on the collected per-provider results. -/
def concatAll : List (List TrackRecord) → List TrackRecord
  | [] => []
  | l :: ls => l ++ concatAll ls

/-- YtPuttyApi.search: keep the providers whose canSearch() is true, fan the
query out, catch per-provider errors as empty contributions, flatten in
provider-iteration order and deduplicate. -/
def aggregatorSearch (provs : List SProv) : List TrackRecord :=
  dedup (concatAll ((provs.filter (fun p => p.canSearch)).map contribution))

/-- Providers whose rotate method is invoked by the fan-out catch branch:
the search-capable providers that threw and have a rotate method. -/
def searchRotated (provs : List SProv) : List SProv :=
  (provs.filter (fun p => p.canSearch)).filter (fun p => sthrows p && p.hasRotate)

lemma concatAll_append (a b : List (List TrackRecord)) :
    concatAll (a ++ b) = concatAll a ++ concatAll b := by
  induction a with
  | nil => rfl
  | cons l ls ih => simp [concatAll, ih]

lemma contribution_of_throw (p : SProv) (h : sthrows p = true) :
    contribution p = [] := by
  unfold contribution
  unfold sthrows at h
  cases hres : p.result with
  | error e => rfl
  | ok rs => rw [hres] at h; simp at h

/-- C2: a provider whose search throws contributes nothing and removing it
from the provider map leaves the aggregate output unchanged (fan-out
isolation); its rotate is invoked when available; and when every
search-capable provider throws, the aggregator returns the empty list (the
model is a total function, mirroring the catch that prevents any exception
from reaching the caller). -/
theorem aggregator_fanout_isolation (l₁ l₂ : List SProv) (p : SProv)
    (hthrow : sthrows p = true) :
    aggregatorSearch (l₁ ++ p :: l₂) = aggregatorSearch (l₁ ++ l₂) ∧
    (p.canSearch = true → p.hasRotate = true → p ∈ searchRotated (l₁ ++ p :: l₂)) ∧
    (∀ provs : List SProv,
      (∀ q ∈ provs, q.canSearch = true → sthrows q = true) →
      aggregatorSearch provs = []) := by
  refine ⟨?_, ?_, ?_⟩
  · unfold aggregatorSearch
    rw [List.filter_append, List.filter_append, List.filter_cons]
    by_cases hc : p.canSearch
    · simp only [hc, if_pos]
      rw [List.map_append, List.map_append, List.map_cons,
        concatAll_append, concatAll_append]
      simp [concatAll, contribution_of_throw p hthrow]
    · simp [hc]
  · intro hc hr
    unfold searchRotated
    rw [List.mem_filter, List.mem_filter]
    refine ⟨⟨List.mem_append_right _ (List.mem_cons_self _ _), hc⟩, ?_⟩
    rw [hthrow, hr]
    rfl
  · intro provs hall
    unfold aggregatorSearch
    have hnil : concatAll ((provs.filter (fun p => p.canSearch)).map contribution) = [] := by
      induction provs with
      | nil => rfl
      | cons q qs ih =>
        rw [List.filter_cons]
        by_cases hq : q.canSearch
        · simp only [hq, if_pos, List.map_cons, concatAll]
          rw [contribution_of_throw q (hall q (List.mem_cons_self _ _) hq)]
          simp only [List.nil_append]
          exact ih (fun r hr hc => hall r (List.mem_cons_of_mem _ hr) hc)
        · simp only [hq]
          simp only [Bool.false_eq_true, if_neg, reduceIte]
          exact ih (fun r hr hc => hall r (List.mem_cons_of_mem _ hr) hc)
    rw [hnil]
    rfl

/-- Witness for C2 at a concrete input: a throwing rotatable provider
between two succeeding ones is dropped from the output, appears in the
rotated set, and a map of only-throwing providers aggregates to nothing. -/
theorem aggregator_fanout_isolation_witness :
    aggregatorSearch
        [⟨"yt", "YouTube", true, false, .ok [⟨"Song A", "a1", 0, "up", "YT", "YouTube"⟩]⟩,
         ⟨"pi", "Piped", true, true, .error ()⟩,
         ⟨"iv", "Invidious", true, true, .ok [⟨"Song B", "b1", 0, "up", "IV", "Invidious"⟩]⟩] =
      aggregatorSearch
        [⟨"yt", "YouTube", true, false, .ok [⟨"Song A", "a1", 0, "up", "YT", "YouTube"⟩]⟩,
         ⟨"iv", "Invidious", true, true, .ok [⟨"Song B", "b1", 0, "up", "IV", "Invidious"⟩]⟩] ∧
    (⟨"pi", "Piped", true, true, .error ()⟩ : SProv) ∈
      searchRotated
        [⟨"yt", "YouTube", true, false, .ok [⟨"Song A", "a1", 0, "up", "YT", "YouTube"⟩]⟩,
         ⟨"pi", "Piped", true, true, .error ()⟩,
         ⟨"iv", "Invidious", true, true, .ok [⟨"Song B", "b1", 0, "up", "IV", "Invidious"⟩]⟩] ∧
    aggregatorSearch [⟨"pi", "Piped", true, true, .error ()⟩,
                      ⟨"iv", "Invidious", true, true, .error ()⟩] = [] := by
  have h := aggregator_fanout_isolation
    [⟨"yt", "YouTube", true, false, .ok [⟨"Song A", "a1", 0, "up", "YT", "YouTube"⟩]⟩]
    [⟨"iv", "Invidious", true, true, .ok [⟨"Song B", "b1", 0, "up", "IV", "Invidious"⟩]⟩]
    ⟨"pi", "Piped", true, true, .error ()⟩ (by decide)
  exact ⟨h.1, h.2.1 rfl rfl, h.2.2
    [⟨"pi", "Piped", true, true, .error ()⟩, ⟨"iv", "Invidious", true, true, .error ()⟩]
    (by decide)⟩

lemma mem_concatAll (r : TrackRecord) :
    ∀ ls, r ∈ concatAll ls → ∃ l ∈ ls, r ∈ l := by
  intro ls
  induction ls with
  | nil => intro h; simp [concatAll] at h
  | cons l ls ih =>
    intro h
    simp only [concatAll] at h
    rcases List.mem_append.mp h with h | h
    · exact ⟨l, List.mem_cons_self _ _, h⟩
    · rcases ih h with ⟨l2, hl2, hr⟩
      exact ⟨l2, List.mem_cons_of_mem _ hl2, hr⟩

lemma contribution_provider (p : SProv) (r : TrackRecord)
    (h : r ∈ contribution p) : r.provider = p.name := by
  unfold contribution at h
  cases hres : p.result with
  | ok rs =>
    rw [hres] at h
    rcases List.mem_map.mp h with ⟨x, hx, hmap⟩
    rw [← hmap]
  | error e => rw [hres] at h; simp at h

/-- Capability flags set by the AIGalleryProvider constructor
(providers.js lines 402 and 403): the search and resolve capabilities are
both declared false. -/
def aiGalleryCapabilities : Bool × Bool := (false, false)

/-- Capability flags set by the SimilarSongsProvider constructor
(providers.js lines 455 and 456): the search and resolve capabilities are
both declared false. -/
def similarSongsCapabilities : Bool × Bool := (false, false)

/-- The provider map built by the YtPuttyApi constructor, in insertion
order, with the capability and rotate facts fixed by each provider class
constructor and the per-provider search outcome left abstract. -/
def ytPuttyApiProviders (behav : String → Except Unit (List TrackRecord)) : List SProv :=
  [⟨"yt", "YouTube", true, false, behav "yt"⟩,
   ⟨"am", "Audiomack", true, false, behav "am"⟩,
   ⟨"pi", "Piped", true, true, behav "pi"⟩,
   ⟨"iv", "Invidious", true, true, behav "iv"⟩,
   ⟨"sc", "SoundCloud", true, false, behav "sc"⟩,
   ⟨"ai", "AI Gallery", aiGalleryCapabilities.1, false, behav "ai"⟩]

/-- C10: both composite providers declare the search capability false, the
fan-out filter of YtPuttyApi.search therefore selects exactly the five
concrete providers (never the gallery entry), and no record of the
aggregate output carries a composite provider name. -/
theorem composite_not_in_fanout (behav : String → Except Unit (List TrackRecord)) :
    aiGalleryCapabilities.1 = false ∧
    similarSongsCapabilities.1 = false ∧
    ((ytPuttyApiProviders behav).filter (fun p => p.canSearch)).map (fun p => p.key) =
      ["yt", "am", "pi", "iv", "sc"] ∧
    (∀ r ∈ aggregatorSearch (ytPuttyApiProviders behav),
      r.provider ≠ "AI Gallery" ∧ r.provider ≠ "Similar Music") := by
  refine ⟨rfl, rfl, rfl, ?_⟩
  intro r hr
  have hmem : r ∈ concatAll
      (((ytPuttyApiProviders behav).filter (fun p => p.canSearch)).map contribution) :=
    (dedupFrom_sublist _ []).subset hr
  rcases mem_concatAll r _ hmem with ⟨l, hl, hrl⟩
  rcases List.mem_map.mp hl with ⟨p, hp, hlp⟩
  have hprov : r.provider = p.name := contribution_provider p r (by rw [hlp]; exact hrl)
  have hp5 : p ∈ [(⟨"yt", "YouTube", true, false, behav "yt"⟩ : SProv),
      ⟨"am", "Audiomack", true, false, behav "am"⟩,
      ⟨"pi", "Piped", true, true, behav "pi"⟩,
      ⟨"iv", "Invidious", true, true, behav "iv"⟩,
      ⟨"sc", "SoundCloud", true, false, behav "sc"⟩] := hp
  have hname : p.name ∈ ["YouTube", "Audiomack", "Piped", "Invidious", "SoundCloud"] := by
    rcases List.mem_cons.mp hp5 with h5 | h5
    · rw [h5]; simp
    rcases List.mem_cons.mp h5 with h5 | h5
    · rw [h5]; simp
    rcases List.mem_cons.mp h5 with h5 | h5
    · rw [h5]; simp
    rcases List.mem_cons.mp h5 with h5 | h5
    · rw [h5]; simp
    rcases List.mem_cons.mp h5 with h5 | h5
    · rw [h5]; simp
    · simp at h5
  rw [hprov]
  constructor
  · intro hc; rw [hc] at hname; revert hname; decide
  · intro hc; rw [hc] at hname; revert hname; decide

/-- Witness for C10 at a concrete input: with one concrete provider
returning one record, that record appears in the output stamped with the
concrete provider name and the composite names are excluded. -/
theorem composite_not_in_fanout_witness :
    (⟨"Song A", "a1", 0, "up", "YT", "YouTube"⟩ : TrackRecord) ∈
      aggregatorSearch (ytPuttyApiProviders
        (fun k => if k = "yt" then .ok [⟨"Song A", "a1", 0, "up", "YT", "Base"⟩] else .ok [])) ∧
    (⟨"Song A", "a1", 0, "up", "YT", "YouTube"⟩ : TrackRecord).provider ≠ "AI Gallery" := by
  have hmem : (⟨"Song A", "a1", 0, "up", "YT", "YouTube"⟩ : TrackRecord) ∈
      aggregatorSearch (ytPuttyApiProviders
        (fun k => if k = "yt" then .ok [⟨"Song A", "a1", 0, "up", "YT", "Base"⟩] else .ok [])) := by
    decide
  exact ⟨hmem, ((composite_not_in_fanout
    (fun k => if k = "yt" then .ok [⟨"Song A", "a1", 0, "up", "YT", "Base"⟩] else .ok [])).2.2.2
    _ hmem).1⟩

/-- Keys of the PwaApi provider map (src/pwa/pwa-api.js lines 10 to 16), in
insertion order. -/
def pwaProviderKeys : List String := ["yt", "am", "pi", "iv", "sc"]

/-- Primary provider keys chosen by PwaApi.resolveStream from the source
hint (line 59): the audio-platform key alone for hint AM, otherwise the two
mirror keys. -/
def primaryFor (hint : String) : List String :=
  if hint = "AM" then ["am"] else ["pi", "iv"]

/-- Result of trying a list of provider keys in order, as both loops of
PwaApi.resolveStream do: return the first non-null URL, treat a thrown
error or a null return as a miss and continue. -/
def tryKeys (behav : String → Except Unit (Option String)) : List String → Option String
  | [] => none
  | k :: ks =>
    match behav k with
    | .ok (some u) => some u
    | .ok none => tryKeys behav ks
    | .error _ => tryKeys behav ks

/-- Trial order of PwaApi.resolveStream: the primary keys for the hint,
then every remaining provider key in map order (the fallback loop skips the
primary keys). -/
def pwaTrialOrder (hint : String) : List String :=
  primaryFor hint ++ pwaProviderKeys.filter (fun k => !(primaryFor hint).contains k)

/-- PwaApi.resolveStream: try the hint-selected primary providers, then the
remaining providers, returning the first non-null URL or null. -/
def pwaResolveStream (hint : String) (behav : String → Except Unit (Option String)) :
    Option String :=
  tryKeys behav (pwaTrialOrder hint)

/-- C3: with source hint AM the audio-platform key is tried first, so when
the audio-platform provider resolves the id (and every other provider
throws or yields null), PwaApi.resolveStream returns its URL, even though
that key sits only fourth in the default (hint YT) trial order. -/
theorem resolve_hint_am_honored (behav : String → Except Unit (Option String))
    (u : String) (ham : behav "am" = .ok (some u))
    (hothers : ∀ k, k ≠ "am" → behav k = .error () ∨ behav k = .ok none) :
    pwaResolveStream "AM" behav = some u ∧
    pwaTrialOrder "AM" = ["am", "yt", "pi", "iv", "sc"] ∧
    pwaTrialOrder "YT" = ["pi", "iv", "yt", "am", "sc"] ∧
    (pwaTrialOrder "YT").head? ≠ some "am" := by
  refine ⟨?_, rfl, rfl, by decide⟩
  have horder : pwaTrialOrder "AM" = ["am", "yt", "pi", "iv", "sc"] := rfl
  unfold pwaResolveStream
  rw [horder]
  unfold tryKeys
  rw [ham]

/-- Concrete behavior for the C3 witness: the audio-platform provider
resolves, every other provider throws. -/
def behavAM : String → Except Unit (Option String) :=
  fun k => if k = "am" then .ok (some "https://audiomack.example/stream/abc") else .error ()

/-- Witness for C3 at a concrete input. -/
theorem resolve_hint_am_honored_witness :
    pwaResolveStream "AM" behavAM = some "https://audiomack.example/stream/abc" :=
  (resolve_hint_am_honored behavAM "https://audiomack.example/stream/abc"
    (by simp [behavAM])
    (fun k hk => Or.inl (by simp [behavAM, hk]))).1

/-- Resolve-side view of one provider of the YtPuttyApi provider map: its
display name, the capability flag declared at construction, whether it has
a rotate method, and the outcome of its resolve call on the id under
consideration (error models a thrown exception, ok none a null return). -/
structure RProv where
  name : String
  canResolve : Bool
  hasRotate : Bool
  result : Except Unit (Option String)

/-- True when the resolve call of the provider threw. -/
def rthrows (p : RProv) : Bool :=
  match p.result with
  | .error _ => true
  | .ok _ => false

/-- The sequential loop of YtPuttyApi.resolveStream over the
resolve-capable providers, instrumented with the invocation and rotation
traces: stop at the first non-null URL; on a null return continue; on a
thrown error invoke rotate when the provider has one and continue. The
triple is (returned URL or none, names invoked in order, names rotated in
order). -/
def resolveSeq : List RProv → Option String × List String × List String
  | [] => (none, [], [])
  | p :: ps =>
    match p.result with
    | .ok (some u) => (some u, [p.name], [])
    | .ok none =>
      let t := resolveSeq ps
      (t.1, p.name :: t.2.1, t.2.2)
    | .error _ =>
      let t := resolveSeq ps
      (t.1, p.name :: t.2.1, (if p.hasRotate then [p.name] else []) ++ t.2.2)

/-- YtPuttyApi.resolveStream (src/pwa/lib/yt-putty/index.js lines 58 to
72): filter the providers on canResolve(), then run the sequential loop. -/
def ytResolveStream (provs : List RProv) : Option String × List String × List String :=
  resolveSeq (provs.filter (fun p => p.canResolve))

/-- Counterexample to C6 as stated: the first resolve-capable provider
returns null and has a rotate method, yet the loop does not rotate it (the
source rotates only in the catch branch, not on a null return); the second
provider then supplies the URL. -/
theorem resolver_rotate_on_none_cex :
    (ytResolveStream [⟨"A", true, true, .ok none⟩,
        ⟨"B", true, false, .ok (some "https://b.example/s")⟩]).2.2 = [] ∧
    (⟨"A", true, true, .ok none⟩ : RProv).hasRotate = true ∧
    (⟨"A", true, true, .ok none⟩ : RProv).canResolve = true ∧
    (⟨"A", true, true, .ok none⟩ : RProv).result = .ok none ∧
    (ytResolveStream [⟨"A", true, true, .ok none⟩,
        ⟨"B", true, false, .ok (some "https://b.example/s")⟩]).1 =
      some "https://b.example/s" ∧
    ¬("A" ∈ (ytResolveStream [⟨"A", true, true, .ok none⟩,
        ⟨"B", true, false, .ok (some "https://b.example/s")⟩]).2.2) := by
  refine ⟨rfl, rfl, rfl, rfl, rfl, by simp [ytResolveStream, resolveSeq]⟩

/-- C6 amended: if the Nth resolve-capable provider in trial order returns
a URL while every earlier one throws or returns null, the resolver returns
that URL, invokes exactly the providers up to and including the Nth (none
after it), and rotates exactly the earlier providers that threw and have a
rotate method; a provider that merely returns null is passed over without
rotation. -/
theorem resolver_short_circuit_amended (provs pre post : List RProv) (p : RProv)
    (u : String)
    (hsplit : provs.filter (fun q => q.canResolve) = pre ++ p :: post)
    (hpre : ∀ q ∈ pre, q.result = .error () ∨ q.result = .ok none)
    (hp : p.result = .ok (some u)) :
    ytResolveStream provs =
      (some u, pre.map (fun q => q.name) ++ [p.name],
       (pre.filter (fun q => rthrows q && q.hasRotate)).map (fun q => q.name)) := by
  unfold ytResolveStream
  rw [hsplit]
  clear hsplit
  induction pre with
  | nil =>
    simp only [List.nil_append, List.map_nil, List.filter_nil]
    unfold resolveSeq
    rw [hp]
  | cons q qs ih =>
    have hq := hpre q (List.mem_cons_self _ _)
    have hrest : ∀ r ∈ qs, r.result = .error () ∨ r.result = .ok none :=
      fun r hr => hpre r (List.mem_cons_of_mem _ hr)
    have ihq := ih hrest
    rcases hq with hq | hq
    · simp only [List.cons_append]
      unfold resolveSeq
      rw [hq]
      simp only [ihq]
      have hqt : rthrows q = true := by unfold rthrows; rw [hq]
      rw [List.filter_cons]
      simp only [hqt, Bool.true_and]
      cases hqr : q.hasRotate with
      | true => simp [hqr]
      | false => simp [hqr]
    · simp only [List.cons_append]
      unfold resolveSeq
      rw [hq]
      simp only [ihq]
      have hqt : rthrows q = false := by unfold rthrows; rw [hq]
      rw [List.filter_cons, List.map_cons]
      simp [hqt]

/-- Witness for the amended C6 at a concrete input: a non-capable provider
is skipped by the filter, a throwing rotatable provider is rotated, a
null-returning provider is not, and the loop stops at the third capable
provider without invoking the fourth. -/
theorem resolver_short_circuit_amended_witness :
    ytResolveStream
        [⟨"N", false, false, .ok (some "https://never.example")⟩,
         ⟨"A", true, true, .error ()⟩,
         ⟨"B", true, true, .ok none⟩,
         ⟨"C", true, false, .ok (some "https://c.example/s")⟩,
         ⟨"D", true, true, .ok (some "https://d.example/s")⟩] =
      (some "https://c.example/s", ["A", "B", "C"], ["A"]) :=
  resolver_short_circuit_amended
    [⟨"N", false, false, .ok (some "https://never.example")⟩,
     ⟨"A", true, true, .error ()⟩,
     ⟨"B", true, true, .ok none⟩,
     ⟨"C", true, false, .ok (some "https://c.example/s")⟩,
     ⟨"D", true, true, .ok (some "https://d.example/s")⟩]
    [⟨"A", true, true, .error ()⟩, ⟨"B", true, true, .ok none⟩]
    [⟨"D", true, true, .ok (some "https://d.example/s")⟩]
    ⟨"C", true, false, .ok (some "https://c.example/s")⟩
    "https://c.example/s" rfl
    (by intro q hq
        rcases List.mem_cons.mp hq with h | h
        · left; rw [h]
        · right
          rcases List.mem_cons.mp h with h2 | h2
          · rw [h2]
          · simp at h2)
    rfl

/-- One entry of the api_instances configuration list: a mirror type tag
and an endpoint URL. -/
structure InstanceEntry where
  type : String
  url : String
deriving DecidableEq

/-- Hardcoded default endpoint list of the PipedProvider constructor
(providers.js lines 224 to 226). -/
def pipedDefaults : List String :=
  ["https://pipedapi.kavin.rocks",
   "https://api.piped.privacy.com.de",
   "https://api.piped.ot.ax"]

/-- Hardcoded default endpoint list of the InvidiousProvider constructor
(providers.js lines 285 to 288). -/
def invidiousDefaults : List String :=
  ["https://iv.melmac.space",
   "https://vid.puffyan.us",
   "https://inv.nadeko.net",
   "https://invidious.privacydev.net"]

/-- Instance-list initialization shared by both mirror constructors:
config.api_instances filtered by the mirror type when an api_instances
list is supplied, otherwise the defaults. An empty JavaScript array is
truthy, so a supplied list with no entry of the wanted type yields the
empty filter result, not the defaults. -/
def mirrorInstances (wanted : String) (defaults : List String)
    (apiInstances : Option (List InstanceEntry)) : List String :=
  match apiInstances with
  | none => defaults
  | some l => (l.filter (fun i => i.type = wanted)).map (fun i => i.url)

/-- Mirror-provider rotation state: the instance list and the cursor. -/
structure Mirror where
  instances : List String
  currentIndex : Nat
deriving DecidableEq

/-- PipedProvider constructor: instance list from the configuration or the
defaults, cursor at zero. -/
def mkPiped (apiInstances : Option (List InstanceEntry)) : Mirror :=
  ⟨mirrorInstances "piped" pipedDefaults apiInstances, 0⟩

/-- InvidiousProvider constructor. -/
def mkInvidious (apiInstances : Option (List InstanceEntry)) : Mirror :=
  ⟨mirrorInstances "invidious" invidiousDefaults apiInstances, 0⟩

/-- The rotate method of both mirror providers: advance the cursor
cyclically. -/
def Mirror.rotate (m : Mirror) : Mirror :=
  { m with currentIndex := (m.currentIndex + 1) % m.instances.length }

/-- The bounded retry loop of the mirror search methods, parameterized by
the remaining attempt budget and a response oracle mapping an instance
index to the mapped result list of a successful fetch, or none when the
attempt throws (HTTP error, timeout, malformed body): on success return
immediately, on failure rotate and retry. -/
def searchAttempts (resp : Nat → Option (List TrackRecord)) :
    Nat → Mirror → List TrackRecord × Mirror
  | 0, m => ([], m)
  | n + 1, m =>
    match resp m.currentIndex with
    | some rs => (rs, m)
    | none => searchAttempts resp n m.rotate

/-- PipedProvider.search and InvidiousProvider.search: at most
instances.length attempts, empty list when all fail. -/
def mirrorSearch (resp : Nat → Option (List TrackRecord)) (m : Mirror) :
    List TrackRecord × Mirror :=
  searchAttempts resp m.instances.length m

/-- The bounded retry loop of the mirror resolve methods. The oracle
distinguishes the three per-attempt outcomes of the source: a thrown error
(rotate and retry), a successful response without an audio stream (no
return and no rotation, so the same instance is retried), and a successful
response with a URL (return it). -/
def resolveAttempts (resp : Nat → Except Unit (Option String)) :
    Nat → Mirror → Option String × Mirror
  | 0, m => (none, m)
  | n + 1, m =>
    match resp m.currentIndex with
    | .ok (some u) => (some u, m)
    | .ok none => resolveAttempts resp n m
    | .error _ => resolveAttempts resp n m.rotate

/-- PipedProvider.resolve and InvidiousProvider.resolve: at most
instances.length attempts, none when no attempt returns a URL. -/
def mirrorResolve (resp : Nat → Except Unit (Option String)) (m : Mirror) :
    Option String × Mirror :=
  resolveAttempts resp m.instances.length m

lemma rotate_instances (m : Mirror) : m.rotate.instances = m.instances := rfl

lemma rotate_index (m : Mirror) :
    m.rotate.currentIndex = (m.currentIndex + 1) % m.instances.length := rfl

lemma rotate_valid (m : Mirror) (h : m.currentIndex < m.instances.length) :
    m.rotate.currentIndex < m.rotate.instances.length := by
  rw [rotate_instances, rotate_index]
  exact Nat.mod_lt _ (Nat.lt_of_le_of_lt (Nat.zero_le _) h)

lemma searchAttempts_all_fail (resp : Nat → Option (List TrackRecord)) :
    ∀ n (m : Mirror), m.currentIndex < m.instances.length →
      (∀ j < n, resp ((m.currentIndex + j) % m.instances.length) = none) →
      searchAttempts resp n m =
        ([], ⟨m.instances, (m.currentIndex + n) % m.instances.length⟩) := by
  intro n
  induction n with
  | zero =>
    intro m hc _
    rw [searchAttempts]
    rw [Nat.add_zero, Nat.mod_eq_of_lt hc]
  | succ n ih =>
    intro m hc hfail
    have h0 : resp m.currentIndex = none := by
      have := hfail 0 (Nat.succ_pos n)
      rwa [Nat.add_zero, Nat.mod_eq_of_lt hc] at this
    rw [searchAttempts, h0]
    have hrec := ih m.rotate (rotate_valid m hc)
    rw [rotate_instances, rotate_index] at hrec
    rw [hrec]
    · have : ((m.currentIndex + 1) % m.instances.length + n) % m.instances.length =
          (m.currentIndex + (n + 1)) % m.instances.length := by
        rw [Nat.mod_add_mod, Nat.add_assoc, Nat.add_comm 1 n]
      rw [this]
    · intro j hj
      rw [Nat.mod_add_mod, Nat.add_assoc]
      exact hfail (1 + j) (by omega)


lemma searchAttempts_first_success (resp : Nat → Option (List TrackRecord))
    (rs : List TrackRecord) :
    ∀ n k (m : Mirror), m.currentIndex < m.instances.length → k < n →
      (∀ j < k, resp ((m.currentIndex + j) % m.instances.length) = none) →
      resp ((m.currentIndex + k) % m.instances.length) = some rs →
      searchAttempts resp n m =
        (rs, ⟨m.instances, (m.currentIndex + k) % m.instances.length⟩) := by
  intro n
  induction n with
  | zero => intro k m _ hk; omega
  | succ n ih =>
    intro k m hc hk hfail hsucc
    cases k with
    | zero =>
      rw [Nat.add_zero, Nat.mod_eq_of_lt hc] at hsucc
      rw [searchAttempts, hsucc, Nat.add_zero, Nat.mod_eq_of_lt hc]
    | succ k =>
      have h0 : resp m.currentIndex = none := by
        have := hfail 0 (Nat.succ_pos k)
        rwa [Nat.add_zero, Nat.mod_eq_of_lt hc] at this
      rw [searchAttempts, h0]
      have hrec := ih k m.rotate (rotate_valid m hc) (by omega) ?_ ?_
      · rw [rotate_instances, rotate_index] at hrec
        rw [hrec]
        have : ((m.currentIndex + 1) % m.instances.length + k) % m.instances.length =
            (m.currentIndex + (k + 1)) % m.instances.length := by
          rw [Nat.mod_add_mod, Nat.add_assoc, Nat.add_comm 1 k]
        rw [this]
      · intro j hj
        rw [rotate_instances, rotate_index, Nat.mod_add_mod, Nat.add_assoc]
        exact hfail (1 + j) (by omega)
      · rw [rotate_instances, rotate_index, Nat.mod_add_mod, Nat.add_assoc,
          Nat.add_comm 1 k]
        exact hsucc

lemma resolveAttempts_all_throw (resp : Nat → Except Unit (Option String)) :
    ∀ n (m : Mirror), m.currentIndex < m.instances.length →
      (∀ j < n, resp ((m.currentIndex + j) % m.instances.length) = .error ()) →
      resolveAttempts resp n m =
        (none, ⟨m.instances, (m.currentIndex + n) % m.instances.length⟩) := by
  intro n
  induction n with
  | zero =>
    intro m hc _
    rw [resolveAttempts]
    rw [Nat.add_zero, Nat.mod_eq_of_lt hc]
  | succ n ih =>
    intro m hc hfail
    have h0 : resp m.currentIndex = .error () := by
      have := hfail 0 (Nat.succ_pos n)
      rwa [Nat.add_zero, Nat.mod_eq_of_lt hc] at this
    rw [resolveAttempts, h0]
    have hrec := ih m.rotate (rotate_valid m hc)
    rw [rotate_instances, rotate_index] at hrec
    rw [hrec]
    · have : ((m.currentIndex + 1) % m.instances.length + n) % m.instances.length =
          (m.currentIndex + (n + 1)) % m.instances.length := by
        rw [Nat.mod_add_mod, Nat.add_assoc, Nat.add_comm 1 n]
      rw [this]
    · intro j hj
      rw [Nat.mod_add_mod, Nat.add_assoc]
      exact hfail (1 + j) (by omega)

lemma resolveAttempts_first_success (resp : Nat → Except Unit (Option String))
    (u : String) :
    ∀ n k (m : Mirror), m.currentIndex < m.instances.length → k < n →
      (∀ j < k, resp ((m.currentIndex + j) % m.instances.length) = .error ()) →
      resp ((m.currentIndex + k) % m.instances.length) = .ok (some u) →
      resolveAttempts resp n m =
        (some u, ⟨m.instances, (m.currentIndex + k) % m.instances.length⟩) := by
  intro n
  induction n with
  | zero => intro k m _ hk; omega
  | succ n ih =>
    intro k m hc hk hfail hsucc
    cases k with
    | zero =>
      rw [Nat.add_zero, Nat.mod_eq_of_lt hc] at hsucc
      rw [resolveAttempts, hsucc, Nat.add_zero, Nat.mod_eq_of_lt hc]
    | succ k =>
      have h0 : resp m.currentIndex = .error () := by
        have := hfail 0 (Nat.succ_pos k)
        rwa [Nat.add_zero, Nat.mod_eq_of_lt hc] at this
      rw [resolveAttempts, h0]
      have hrec := ih k m.rotate (rotate_valid m hc) (by omega) ?_ ?_
      · rw [rotate_instances, rotate_index] at hrec
        rw [hrec]
        have : ((m.currentIndex + 1) % m.instances.length + k) % m.instances.length =
            (m.currentIndex + (k + 1)) % m.instances.length := by
          rw [Nat.mod_add_mod, Nat.add_assoc, Nat.add_comm 1 k]
        rw [this]
      · intro j hj
        rw [rotate_instances, rotate_index, Nat.mod_add_mod, Nat.add_assoc]
        exact hfail (1 + j) (by omega)
      · rw [rotate_instances, rotate_index, Nat.mod_add_mod, Nat.add_assoc,
          Nat.add_comm 1 k]
        exact hsucc

/-- C5: each mirror search or resolve call starts at the cursor left by
prior calls and tries endpoints in rotation order, rotating on each thrown
failure, for at most instances.length attempts. When every endpoint throws,
search yields the empty list and resolve none, and the cursor has gone full
circle back to its starting value; when the first success happens at the
k-th attempted endpoint, the call returns its payload and leaves the
cursor on that endpoint (no reset between calls). -/
theorem mirror_retry_rotation (m : Mirror)
    (resps : Nat → Option (List TrackRecord))
    (respr : Nat → Except Unit (Option String))
    (hc : m.currentIndex < m.instances.length) :
    ((∀ j < m.instances.length,
        resps ((m.currentIndex + j) % m.instances.length) = none) →
      mirrorSearch resps m = ([], m)) ∧
    (∀ k rs, k < m.instances.length →
      (∀ j < k, resps ((m.currentIndex + j) % m.instances.length) = none) →
      resps ((m.currentIndex + k) % m.instances.length) = some rs →
      mirrorSearch resps m =
        (rs, ⟨m.instances, (m.currentIndex + k) % m.instances.length⟩)) ∧
    ((∀ j < m.instances.length,
        respr ((m.currentIndex + j) % m.instances.length) = .error ()) →
      mirrorResolve respr m = (none, m)) ∧
    (∀ k u, k < m.instances.length →
      (∀ j < k, respr ((m.currentIndex + j) % m.instances.length) = .error ()) →
      respr ((m.currentIndex + k) % m.instances.length) = .ok (some u) →
      mirrorResolve respr m =
        (some u, ⟨m.instances, (m.currentIndex + k) % m.instances.length⟩)) := by
  have heta : (⟨m.instances, m.currentIndex⟩ : Mirror) = m := by cases m; rfl
  have hfull : (m.currentIndex + m.instances.length) % m.instances.length =
      m.currentIndex := by
    rw [Nat.add_mod_right, Nat.mod_eq_of_lt hc]
  refine ⟨?_, ?_, ?_, ?_⟩
  · intro hall
    unfold mirrorSearch
    rw [searchAttempts_all_fail resps m.instances.length m hc hall, hfull, heta]
  · intro k rs hk hfail hsucc
    exact searchAttempts_first_success resps rs m.instances.length k m hc hk hfail hsucc
  · intro hall
    unfold mirrorResolve
    rw [resolveAttempts_all_throw respr m.instances.length m hc hall, hfull, heta]
  · intro k u hk hfail hsucc
    exact resolveAttempts_first_success respr u m.instances.length k m hc hk hfail hsucc

/-- Witness for C5 at a concrete input: a two-endpoint mirror starting at
index one, whose search fails everywhere, returns empty with the cursor
back at one; a resolve that throws at index one and succeeds at index zero
returns the URL and leaves the cursor on index zero. -/
theorem mirror_retry_rotation_witness :
    mirrorSearch (fun _ => none) ⟨["https://a.example", "https://b.example"], 1⟩ =
      ([], ⟨["https://a.example", "https://b.example"], 1⟩) ∧
    mirrorResolve
        (fun i => if i = 0 then .ok (some "https://a.example/s") else .error ())
        ⟨["https://a.example", "https://b.example"], 1⟩ =
      (some "https://a.example/s", ⟨["https://a.example", "https://b.example"], 0⟩) := by
  have h := mirror_retry_rotation ⟨["https://a.example", "https://b.example"], 1⟩
    (fun _ => none)
    (fun i => if i = 0 then .ok (some "https://a.example/s") else .error ())
    (by decide)
  refine ⟨h.1 (by intro j hj; rfl), ?_⟩
  have h2 := h.2.2.2 1 "https://a.example/s" (by decide)
    (by intro j hj
        have : j = 0 := by omega
        rw [this]
        rfl)
    (by rfl)
  simpa using h2

lemma rotate_iterate : ∀ (n : Nat) (m : Mirror),
    m.currentIndex < m.instances.length →
    Mirror.rotate^[n] m =
      ⟨m.instances, (m.currentIndex + n) % m.instances.length⟩ := by
  intro n
  induction n with
  | zero =>
    intro m hc
    rw [Function.iterate_zero_apply, Nat.add_zero, Nat.mod_eq_of_lt hc]
  | succ n ih =>
    intro m hc
    rw [Function.iterate_succ_apply', ih m hc]
    simp [Mirror.rotate, Nat.mod_add_mod, Nat.add_assoc]

/-- C7: rotate advances the cursor cyclically by one modulo the list
length, so iterating it exactly instances.length times returns the mirror
provider, cursor included, to its starting state. -/
theorem rotate_full_cycle (m : Mirror) (hc : m.currentIndex < m.instances.length) :
    Mirror.rotate^[m.instances.length] m = m ∧
    (Mirror.rotate^[m.instances.length] m).currentIndex = m.currentIndex ∧
    m.rotate.currentIndex = (m.currentIndex + 1) % m.instances.length := by
  have h : Mirror.rotate^[m.instances.length] m = m := by
    rw [rotate_iterate m.instances.length m hc, Nat.add_mod_right,
      Nat.mod_eq_of_lt hc]
  exact ⟨h, by rw [h], rfl⟩

/-- Witness for C7 at a concrete input: a three-endpoint mirror with cursor
one returns to cursor one after three rotations. -/
theorem rotate_full_cycle_witness :
    Mirror.rotate^[(⟨["https://a.example", "https://b.example", "https://c.example"], 1⟩ :
        Mirror).instances.length]
      ⟨["https://a.example", "https://b.example", "https://c.example"], 1⟩ =
      ⟨["https://a.example", "https://b.example", "https://c.example"], 1⟩ :=
  (rotate_full_cycle
    ⟨["https://a.example", "https://b.example", "https://c.example"], 1⟩
    (by decide)).1

/-- Counterexample to C4 as stated: a configuration object that supplies an
api_instances list containing only entries of another mirror type leaves
the Piped provider with an empty instance list after construction (the
JavaScript fallback is skipped because an empty array is truthy), so the
cursor zero is not a valid index. -/
theorem mirror_empty_config_cex :
    (mkPiped (some [⟨"invidious", "https://iv.example"⟩])).instances = [] ∧
    ¬((mkPiped (some [⟨"invidious", "https://iv.example"⟩])).currentIndex <
        (mkPiped (some [⟨"invidious", "https://iv.example"⟩])).instances.length) := by
  exact ⟨rfl, by decide⟩

lemma searchAttempts_preserves (resp : Nat → Option (List TrackRecord)) :
    ∀ n (m : Mirror), m.currentIndex < m.instances.length →
      (searchAttempts resp n m).2.instances = m.instances ∧
      (searchAttempts resp n m).2.currentIndex < m.instances.length := by
  intro n
  induction n with
  | zero => intro m hc; exact ⟨rfl, hc⟩
  | succ n ih =>
    intro m hc
    rw [searchAttempts]
    cases hres : resp m.currentIndex with
    | some rs => exact ⟨rfl, hc⟩
    | none =>
      have := ih m.rotate (rotate_valid m hc)
      rwa [rotate_instances] at this

lemma resolveAttempts_preserves (resp : Nat → Except Unit (Option String)) :
    ∀ n (m : Mirror), m.currentIndex < m.instances.length →
      (resolveAttempts resp n m).2.instances = m.instances ∧
      (resolveAttempts resp n m).2.currentIndex < m.instances.length := by
  intro n
  induction n with
  | zero => intro m hc; exact ⟨rfl, hc⟩
  | succ n ih =>
    intro m hc
    rw [resolveAttempts]
    cases hres : resp m.currentIndex with
    | error e => have := ih m.rotate (rotate_valid m hc)
                 rwa [rotate_instances] at this
    | ok o =>
      cases o with
      | some u => exact ⟨rfl, hc⟩
      | none => exact ih m hc

/-- C4 amended: constructing either mirror provider with no configuration
yields its non-empty hardcoded default instance list with cursor zero, a
valid index; the validity invariant is preserved by rotate and by every
search and resolve call (which mutate the cursor only through rotate). The
universal form of the claim fails: a configuration whose api_instances
list has no entry of the provider type yields an empty instance list (see
the counterexample). -/
theorem mirror_instances_invariant_amended :
    (mkPiped none).instances = pipedDefaults ∧ pipedDefaults ≠ [] ∧
    (mkInvidious none).instances = invidiousDefaults ∧ invidiousDefaults ≠ [] ∧
    (mkPiped none).currentIndex < (mkPiped none).instances.length ∧
    (mkInvidious none).currentIndex < (mkInvidious none).instances.length ∧
    (∀ m : Mirror, m.currentIndex < m.instances.length →
      m.rotate.instances = m.instances ∧
      m.rotate.currentIndex < m.rotate.instances.length) ∧
    (∀ (resp : Nat → Option (List TrackRecord)) (m : Mirror),
      m.currentIndex < m.instances.length →
      (mirrorSearch resp m).2.instances = m.instances ∧
      (mirrorSearch resp m).2.currentIndex < m.instances.length) ∧
    (∀ (resp : Nat → Except Unit (Option String)) (m : Mirror),
      m.currentIndex < m.instances.length →
      (mirrorResolve resp m).2.instances = m.instances ∧
      (mirrorResolve resp m).2.currentIndex < m.instances.length) := by
  refine ⟨rfl, by decide, rfl, by decide, by decide, by decide, ?_, ?_, ?_⟩
  · intro m hc
    exact ⟨rotate_instances m, rotate_valid m hc⟩
  · intro resp m hc
    exact searchAttempts_preserves resp m.instances.length m hc
  · intro resp m hc
    exact resolveAttempts_preserves resp m.instances.length m hc

/-- Witness for the amended C4 at a concrete input: the default Piped
mirror stays on its three default instances with a valid cursor after a
search in which every attempt throws. -/
theorem mirror_instances_invariant_amended_witness :
    (mkPiped none).instances = pipedDefaults ∧
    (mirrorSearch (fun _ => none) (mkPiped none)).2.instances =
      (mkPiped none).instances ∧
    (mirrorSearch (fun _ => none) (mkPiped none)).2.currentIndex <
      (mkPiped none).instances.length := by
  have h := mirror_instances_invariant_amended
  exact ⟨h.1, (h.2.2.2.2.2.2.2.1 (fun _ => none) (mkPiped none) (by decide)).1,
    (h.2.2.2.2.2.2.2.1 (fun _ => none) (mkPiped none) (by decide)).2⟩

/-- One stream descriptor of a resolve response payload: its mime type (or
type field, for the Invidious shape), bitrate and URL. -/
structure StreamDesc where
  mimeType : String
  bitrate : Int
  url : String
deriving DecidableEq

/-- True when the character list pat occurs at the start of s. -/
def beginsWith : List Char → List Char → Bool
  | _, [] => true
  | [], _ :: _ => false
  | a :: as, b :: bs => a == b && beginsWith as bs

/-- True when the character list pat occurs somewhere inside s: model of
the JavaScript String.prototype.includes test. -/
def containsSub : List Char → List Char → Bool
  | [], pat => pat.isEmpty
  | a :: as, pat => beginsWith (a :: as) pat || containsSub as pat

/-- The audio filter of YtPuttyProvider.resolve (providers.js line 172):
keep the descriptors whose mime type mentions audio. -/
def mimeIsAudio (f : StreamDesc) : Bool :=
  containsSub f.mimeType.data "audio".data

/-- Fold underlying the JavaScript sort((a, b) => b.bitrate - a.bitrate)
followed by taking element zero: the sort is stable, so element zero of
the sorted array is the earliest descriptor with the maximal bitrate,
which this accumulator computes directly (a later element replaces the
best candidate only when strictly larger). -/
def pickMax : Option StreamDesc → List StreamDesc → Option StreamDesc
  | acc, [] => acc
  | none, f :: fs => pickMax (some f) fs
  | some g, f :: fs => pickMax (some (if g.bitrate < f.bitrate then f else g)) fs

/-- The audio selection shared by YtPuttyProvider.resolve,
PipedProvider.resolve and InvidiousProvider.resolve: filter the payload
descriptors down to audio ones and take the highest-bitrate entry. -/
def bestAudio (fs : List StreamDesc) : Option StreamDesc :=
  pickMax none (fs.filter mimeIsAudio)

/-- The URL extraction of the resolve methods: the url field of the best
audio descriptor, or none when the payload has no audio descriptor. -/
def resolveAudioUrl (fs : List StreamDesc) : Option String :=
  (bestAudio fs).map (fun d => d.url)

lemma pickMax_some : ∀ (l : List StreamDesc) (g : StreamDesc),
    ∃ d, pickMax (some g) l = some d := by
  intro l
  induction l with
  | nil => intro g; exact ⟨g, rfl⟩
  | cons f fs ih =>
    intro g
    rw [pickMax]
    exact ih _

lemma pickMax_spec : ∀ (l : List StreamDesc) (g d : StreamDesc),
    pickMax (some g) l = some d →
      (d = g ∨ d ∈ l) ∧ g.bitrate ≤ d.bitrate ∧ ∀ f ∈ l, f.bitrate ≤ d.bitrate := by
  intro l
  induction l with
  | nil =>
    intro g d h
    rw [pickMax] at h
    rcases Option.some_inj.mp h with h
    exact ⟨Or.inl h.symm, by rw [h], by intro f hf; simp at hf⟩
  | cons f fs ih =>
    intro g d h
    rw [pickMax] at h
    rcases ih _ d h with ⟨hmem, hge, hall⟩
    by_cases hlt : g.bitrate < f.bitrate
    · rw [if_pos hlt] at hmem hge
      refine ⟨?_, Int.le_of_lt (Int.lt_of_lt_of_le hlt hge), ?_⟩
      · rcases hmem with hmem | hmem
        · exact Or.inr (by rw [hmem]; exact List.mem_cons_self _ _)
        · exact Or.inr (List.mem_cons_of_mem _ hmem)
      · intro x hx
        rcases List.mem_cons.mp hx with hx | hx
        · rw [hx]; exact hge
        · exact hall x hx
    · rw [if_neg hlt] at hmem hge
      refine ⟨?_, hge, ?_⟩
      · rcases hmem with hmem | hmem
        · exact Or.inl hmem
        · exact Or.inr (List.mem_cons_of_mem _ hmem)
      · intro x hx
        rcases List.mem_cons.mp hx with hx | hx
        · rw [hx]
          exact Int.le_trans (Int.not_lt.mp hlt) hge
        · exact hall x hx

/-- C8: the resolve methods return the url of an audio descriptor of the
payload whose bitrate is maximal among all audio descriptors, and return
none exactly when the payload holds no audio descriptor. -/
theorem highest_bitrate_audio_selected (fs : List StreamDesc) :
    (resolveAudioUrl fs = none ↔ fs.filter mimeIsAudio = []) ∧
    (∀ u, resolveAudioUrl fs = some u →
      ∃ d ∈ fs, mimeIsAudio d = true ∧ d.url = u ∧
        ∀ f ∈ fs, mimeIsAudio f = true → f.bitrate ≤ d.bitrate) := by
  constructor
  · unfold resolveAudioUrl bestAudio
    cases hf : fs.filter mimeIsAudio with
    | nil => simp [pickMax]
    | cons g gs =>
      rw [pickMax]
      rcases pickMax_some gs g with ⟨d, hd⟩
      rw [hd]
      simp
  · intro u hu
    unfold resolveAudioUrl bestAudio at hu
    cases hf : fs.filter mimeIsAudio with
    | nil => rw [hf] at hu; simp [pickMax] at hu
    | cons g gs =>
      rw [hf, pickMax] at hu
      rcases pickMax_some gs g with ⟨d, hd⟩
      rw [hd] at hu
      have hurl : d.url = u := by simpa using hu
      rcases pickMax_spec gs g d hd with ⟨hmem, hge, hall⟩
      have hdin : d ∈ fs.filter mimeIsAudio := by
        rw [hf]
        rcases hmem with hmem | hmem
        · rw [hmem]; exact List.mem_cons_self _ _
        · exact List.mem_cons_of_mem _ hmem
      have hdfs : d ∈ fs := (List.mem_filter.mp hdin).1
      have hdaudio : mimeIsAudio d = true := (List.mem_filter.mp hdin).2
      refine ⟨d, hdfs, hdaudio, hurl, ?_⟩
      intro x hx hxa
      have hxin : x ∈ fs.filter mimeIsAudio := List.mem_filter.mpr ⟨hx, hxa⟩
      rw [hf] at hxin
      rcases List.mem_cons.mp hxin with hxin | hxin
      · rw [hxin]; exact hge
      · exact hall x hxin

/-- Witness for C8 at a concrete input: among one video descriptor and two
audio descriptors the url of the higher-bitrate audio descriptor is
returned. -/
theorem highest_bitrate_audio_selected_witness :
    resolveAudioUrl
        [⟨"video/mp4", 1000, "https://v.example"⟩,
         ⟨"audio/webm", 64, "https://a64.example"⟩,
         ⟨"audio/mp4", 128, "https://a128.example"⟩] = some "https://a128.example" ∧
    (∃ d ∈ [(⟨"video/mp4", 1000, "https://v.example"⟩ : StreamDesc),
         ⟨"audio/webm", 64, "https://a64.example"⟩,
         ⟨"audio/mp4", 128, "https://a128.example"⟩], mimeIsAudio d = true ∧
       d.url = "https://a128.example" ∧
       ∀ f ∈ [(⟨"video/mp4", 1000, "https://v.example"⟩ : StreamDesc),
         ⟨"audio/webm", 64, "https://a64.example"⟩,
         ⟨"audio/mp4", 128, "https://a128.example"⟩], mimeIsAudio f = true →
           f.bitrate ≤ d.bitrate) := by
  constructor
  · decide
  · exact (highest_bitrate_audio_selected
      [⟨"video/mp4", 1000, "https://v.example"⟩,
       ⟨"audio/webm", 64, "https://a64.example"⟩,
       ⟨"audio/mp4", 128, "https://a128.example"⟩]).2
      "https://a128.example" (by decide)

end OnlyVibes
